import Mathlib

/-!
Verification of the bulk outbound-call dispatcher of the
AssureAI-Insurance-Voice-AI-Agent repository.

The development shallowly embeds the relevant TypeScript sources:

* `src/server/services/bolna.ts` — `formatPhoneNumber`, the phone
  normalization inside `triggerOutboundCall`, and the queue processor
  `processCallQueue` (the second document in that file) together with its
  module-level constants `activeProcessors`, `CALL_DELAY` and
  `MAX_CONCURRENT_CALLS`;
* `src/server/middleware/auth.ts` — the `/upload`, `/retry` and
  `/retry-all` route handlers of the bulk-call router (the third document
  in that file);
* `src/server/utils/fileParser.ts` — `findDuplicates`;
* `src/unnamed/part_007` — the `BulkCallQueue` Mongoose schema.

Strings are Lean `String`s (JavaScript strings), machine numbers are `Nat`
(all arithmetic here is small and non-negative), the Mongo collection is a
`List` of entries, and the remote Bolna API together with possible local
exceptions is an oracle (`Env`) giving the outcome of each dispatch and
whether each fetch from the store fails.  The asynchronous run of the
processor is sequentialized; wall-clock time is a `Nat` counter (in
milliseconds) advanced only by the explicit `delay` calls of the source,
and the run records a trace of store writes, dispatch calls and sleeps.
-/

/-- The `status` enum of the `BulkCallQueue` schema:
`'pending' | 'processing' | 'completed' | 'failed'`. -/
inductive CallStatus
  | pending
  | processing
  | completed
  | failed
deriving DecidableEq, Repr

/-- One document of the `BulkCallQueue` collection (`IBulkCallQueue` in
`src/unnamed/part_007`).  The Mongo `_id` is an opaque identifier, modelled
as a `Nat`; `createdAt` is the creation timestamp used by the processor's
`sort({ createdAt: 1 })`.  The lazily populated interaction-snapshot fields
(`transcript`, `recordingUrl`, ...) play no role in the claims and are
omitted. -/
structure BulkCallEntry where
  id : Nat
  userId : String
  name : String
  phone : String
  city : Option String
  email : Option String
  notes : Option String
  status : CallStatus
  bolnaCallId : Option String
  errorMessage : Option String
  callAttempts : Nat
  lastAttemptAt : Option Nat
  createdAt : Nat
deriving DecidableEq, Repr

/-- The `BolnaCallResponse` interface of `src/server/services/bolna.ts`. -/
structure BolnaCallResponse where
  success : Bool
  callId : Option String
  message : Option String
  error : Option String
deriving DecidableEq, Repr

/-- Outcome of one `await triggerOutboundCall(...)` as seen by the queue
processor: either the promise resolves to a `BolnaCallResponse`, or an
exception with message `msg` is thrown during the dispatch step (the
processor's per-entry `try` block). -/
inductive DispatchOutcome
  | ok (r : BolnaCallResponse)
  | exn (msg : String)
deriving DecidableEq, Repr

/-- Oracle for everything outside the processor: `dispatch n` is the
outcome of the `n`-th dispatch attempt of the run, and `fetchFails k`
tells whether the `k`-th `BulkCallQueue.find(...)` of the run throws
(a store outage, caught by the processor's run-level `catch`). -/
structure Env where
  dispatch : Nat → DispatchOutcome
  fetchFails : Nat → Bool

/-- Observable actions of a processor run, in order: a persisted store
write (`call.save()`), a provider dispatch call, and a `delay(ms)`.
Each carries the clock value `t` (ms) at which it happens. -/
inductive Event
  | save (t : Nat) (e : BulkCallEntry)
  | dispatch (t : Nat) (phone : String) (contact : String)
  | sleep (t : Nat) (ms : Nat)
deriving DecidableEq, Repr

/-- State threaded through one invocation of `processCallQueue`: the store,
the clock, the recorded trace, and the two run-local counters of the source
(`processedCount`, and the index used to consult the dispatch oracle). -/
structure RunState where
  store : List BulkCallEntry
  clock : Nat
  events : List Event
  processedCount : Nat
  dispatchIdx : Nat
deriving DecidableEq, Repr

/-! ## Phone number normalization (`src/server/services/bolna.ts`) -/

/-- JavaScript's `\d` character class (and `Char.isDigit`): `'0'`-`'9'`. -/
def isAsciiDigit (c : Char) : Bool := c.isDigit

/-- `phone.replace(/\D/g, '')`: keep only the digits. -/
def cleanDigits (cs : List Char) : List Char := cs.filter isAsciiDigit

/-- `phone.startsWith('+')`. -/
def startsWithPlus (s : String) : Bool := s.data.head? == some '+'

/-- `formatPhoneNumber` of `src/server/services/bolna.ts` (lines 191-209):
strip all non-digits; if the input does not start with `+`, prepend `+91`
when exactly 10 digits remain and a bare `+` otherwise; if it does start
with `+`, return `+` followed by the digits. -/
def formatPhoneNumber (phone : String) : String :=
  let cleaned := cleanDigits phone.data
  if !(startsWithPlus phone) then
    if cleaned.length == 10 then String.mk ('+' :: '9' :: '1' :: cleaned)
    else String.mk ('+' :: cleaned)
  else
    String.mk ('+' :: cleaned)

/-- The formatting rule exactly as the specification words it (§4.2 /
claim C9), with its branches in the spec's order: first the
already-prefixed case, then the 10-digit default-country-code case, then
the bare-`+` fallback.  Stated separately from `formatPhoneNumber` so that
the agreement of code and spec is a theorem, not a definition. -/
def formatPhoneNumberSpec (phone : String) : String :=
  let cleaned := cleanDigits phone.data
  if startsWithPlus phone then String.mk ('+' :: cleaned)
  else if cleaned.length == 10 then String.mk ('+' :: '9' :: '1' :: cleaned)
  else String.mk ('+' :: cleaned)

/-- JavaScript's `\s` class, restricted to the ASCII whitespace characters
(sufficient here: the only fact used is that `+` and digits are not
whitespace). -/
def jsWhitespace (c : Char) : Bool :=
  c == ' ' || c == '\t' || c == '\n' || c == '\r' || c == '\x0b' || c == '\x0c'

/-- `String.prototype.trim()`: drop whitespace from both ends. -/
def jsTrim (cs : List Char) : List Char :=
  ((cs.dropWhile jsWhitespace).reverse.dropWhile jsWhitespace).reverse

/-- The normalization `triggerOutboundCall` itself applies to its `phone`
argument before posting to the API (`src/server/services/bolna.ts` lines
52-63): `trim()`, then `replace(/[\s-]/g, '')`, then the same
`+91`/bare-`+` prefixing — except that a string already starting with `+`
is passed through unchanged. -/
def triggerNormalize (phone : String) : String :=
  let t := jsTrim phone.data
  let f := t.filter (fun c => !(jsWhitespace c || c == '-'))
  if !(f.head? == some '+') then
    if f.length == 10 then String.mk ('+' :: '9' :: '1' :: f)
    else String.mk ('+' :: f)
  else
    String.mk f

/-! ## Shape lemmas for the phone formatter -/

theorem cleanDigits_all_digits (cs : List Char) :
    ∀ c ∈ cleanDigits cs, isAsciiDigit c = true := by
  intro c hc
  exact (List.mem_filter.mp hc).2

theorem cleanDigits_of_all_digits {cs : List Char}
    (h : ∀ c ∈ cs, isAsciiDigit c = true) : cleanDigits cs = cs :=
  List.filter_eq_self.mpr h

/-- Every output of `formatPhoneNumber` is a `+` followed by digits only. -/
theorem formatPhoneNumber_shape (p : String) :
    ∃ ds : List Char, formatPhoneNumber p = String.mk ('+' :: ds) ∧
      ∀ c ∈ ds, isAsciiDigit c = true := by
  unfold formatPhoneNumber
  by_cases h1 : startsWithPlus p
  · simp only [h1, Bool.not_true, Bool.false_eq_true, if_false]
    exact ⟨cleanDigits p.data, rfl, cleanDigits_all_digits p.data⟩
  · simp only [Bool.not_eq_true] at h1
    simp only [h1, Bool.not_false, if_true]
    by_cases h2 : (cleanDigits p.data).length == 10
    · refine ⟨'9' :: '1' :: cleanDigits p.data, by simp [h2], ?_⟩
      intro c hc
      rcases List.mem_cons.mp hc with rfl | hc
      · rfl
      rcases List.mem_cons.mp hc with rfl | hc
      · rfl
      · exact cleanDigits_all_digits p.data c hc
    · simp only [h2, if_false]
      exact ⟨cleanDigits p.data, rfl, cleanDigits_all_digits p.data⟩

theorem digit_not_jsWhitespace {c : Char} (h : isAsciiDigit c = true) :
    jsWhitespace c = false := by
  cases hw : jsWhitespace c
  · rfl
  · exfalso
    have h48 : 48 ≤ c.val := by
      simp only [isAsciiDigit, Char.isDigit, Bool.and_eq_true, decide_eq_true_eq,
        ge_iff_le] at h
      exact h.1
    simp only [jsWhitespace, Bool.or_eq_true, beq_iff_eq, or_assoc] at hw
    rcases hw with hw | hw | hw | hw | hw | hw <;> subst hw <;> exact absurd h48 (by decide)

theorem digit_not_dash {c : Char} (h : isAsciiDigit c = true) : (c == '-') = false := by
  cases hd : c == '-'
  · rfl
  · exfalso
    have h48 : 48 ≤ c.val := by
      simp only [isAsciiDigit, Char.isDigit, Bool.and_eq_true, decide_eq_true_eq,
        ge_iff_le] at h
      exact h.1
    rw [beq_iff_eq] at hd
    subst hd
    exact absurd h48 (by decide)

theorem dropWhile_eq_self_of_all {α : Type} {p : α → Bool} {l : List α}
    (h : ∀ c ∈ l, p c = false) : l.dropWhile p = l := by
  cases l with
  | nil => rfl
  | cons a l => simp [List.dropWhile_cons, h a (List.mem_cons_self a l)]

theorem jsTrim_eq_self {cs : List Char} (h : ∀ c ∈ cs, jsWhitespace c = false) :
    jsTrim cs = cs := by
  unfold jsTrim
  rw [dropWhile_eq_self_of_all h]
  rw [dropWhile_eq_self_of_all (fun c hc => h c (List.mem_reverse.mp hc))]
  exact List.reverse_reverse cs

/-- Both normalizers leave a `+`-prefixed all-digit string unchanged. -/
theorem plus_digits_fixpoint (ds : List Char) (hds : ∀ c ∈ ds, isAsciiDigit c = true) :
    formatPhoneNumber (String.mk ('+' :: ds)) = String.mk ('+' :: ds) ∧
    triggerNormalize (String.mk ('+' :: ds)) = String.mk ('+' :: ds) := by
  have hclean : cleanDigits ('+' :: ds) = ds := by
    have h1 : isAsciiDigit '+' = false := by decide
    have h2 : List.filter isAsciiDigit ds = ds := List.filter_eq_self.mpr hds
    simp [cleanDigits, List.filter_cons, h1, h2]
  have hnw : ∀ c ∈ ('+' :: ds), jsWhitespace c = false := by
    intro c hc
    rcases List.mem_cons.mp hc with rfl | hc
    · decide
    · exact digit_not_jsWhitespace (hds c hc)
  constructor
  · have hsw : startsWithPlus (String.mk ('+' :: ds)) = true := rfl
    simp [formatPhoneNumber, hsw, hclean]
  · have htrim : jsTrim ('+' :: ds) = '+' :: ds := jsTrim_eq_self hnw
    have hfilt : ('+' :: ds).filter (fun c => !(jsWhitespace c || c == '-')) = '+' :: ds := by
      refine List.filter_eq_self.mpr ?_
      intro c hc
      rcases List.mem_cons.mp hc with rfl | hc
      · decide
      · simp [digit_not_jsWhitespace (hds c hc), digit_not_dash (hds c hc)]
    show triggerNormalize (String.mk ('+' :: ds)) = String.mk ('+' :: ds)
    unfold triggerNormalize
    show (if !((List.filter (fun c => !(jsWhitespace c || c == '-'))
          (jsTrim ('+' :: ds))).head? == some '+') then _ else _) = _
    rw [htrim, hfilt]
    simp

/-- C9: `formatPhoneNumber` strips non-digits and returns `+` plus the
digits for an already-`+`-prefixed input, `+91` plus the digits for a
bare 10-digit number, and `+` plus the digits otherwise; in particular
`"9876543210" ↦ "+919876543210"` and `"+1 202-555-0173" ↦ "+12025550173"`.
The code agrees with the spec-ordered rule `formatPhoneNumberSpec` on
every input. -/
theorem formatPhoneNumber_matches_spec (p : String) :
    formatPhoneNumber p = formatPhoneNumberSpec p ∧
    formatPhoneNumber "9876543210" = "+919876543210" ∧
    formatPhoneNumber "+1 202-555-0173" = "+12025550173" := by
  refine ⟨?_, by decide, by decide⟩
  by_cases h : startsWithPlus p <;>
    simp [formatPhoneNumber, formatPhoneNumberSpec, h]

/-- C10: `formatPhoneNumber` is idempotent — its output always starts with
`+` followed only by digits, so re-formatting changes nothing — and the
normalization `triggerOutboundCall` applies on its own (`triggerNormalize`)
also leaves an already-formatted number unchanged, making the processor's
pre-formatting harmless. -/
theorem formatPhoneNumber_idempotent (p : String) :
    formatPhoneNumber (formatPhoneNumber p) = formatPhoneNumber p ∧
    triggerNormalize (formatPhoneNumber p) = formatPhoneNumber p := by
  obtain ⟨ds, hp, hds⟩ := formatPhoneNumber_shape p
  rw [hp]
  exact plus_digits_fixpoint ds hds

/-! ## The call queue processor (`processCallQueue` document in
`src/server/services/bolna.ts`) -/

/-- `const CALL_DELAY = 2000` — pacing delay between calls, ms. -/
def CALL_DELAY : Nat := 2000

/-- `const MAX_CONCURRENT_CALLS = 5` — batch size of each fetch. -/
def MAX_CONCURRENT_CALLS : Nat := 5

/-- Pause between batches: the literal `delay(1000)` at the end of each
loop iteration. -/
def BATCH_PAUSE : Nat := 1000

/-- The Mongo filter `{ userId, status: 'pending' }`. -/
def isPendingFor (u : String) (e : BulkCallEntry) : Bool :=
  e.userId == u && e.status == CallStatus.pending

/-- Number of the owner's pending entries in a store. -/
def pendingCount (u : String) (store : List BulkCallEntry) : Nat :=
  store.countP (isPendingFor u)

/-- Insertion step of the ascending-`createdAt` sort. -/
def insertByCreated (e : BulkCallEntry) : List BulkCallEntry → List BulkCallEntry
  | [] => [e]
  | x :: xs =>
    if e.createdAt ≤ x.createdAt then e :: x :: xs else x :: insertByCreated e xs

/-- `.sort({ createdAt: 1 })` — sort ascending by creation time. -/
def sortByCreated (l : List BulkCallEntry) : List BulkCallEntry :=
  l.foldr insertByCreated []

/-- One `BulkCallQueue.find({userId, status: 'pending'})
.sort({createdAt: 1}).limit(MAX_CONCURRENT_CALLS)`. -/
def fetchBatch (u : String) (store : List BulkCallEntry) : List BulkCallEntry :=
  (sortByCreated (store.filter (isPendingFor u))).take MAX_CONCURRENT_CALLS

/-- `call.save()`: persist a document, replacing the stored document with
the same `_id`. -/
def saveEntry (p : BulkCallEntry) (store : List BulkCallEntry) : List BulkCallEntry :=
  store.map (fun x => if x.id == p.id then p else x)

/-- JavaScript `a || b` on strings: the empty string is falsy. -/
def strFalsyOr (a b : String) : String := if a == "" then b else a

/-- JavaScript `a || b` where `a` may be `undefined` or an empty string. -/
def optFalsyOr (a : Option String) (b : String) : String :=
  match a with
  | none => b
  | some s => strFalsyOr s b

/-- Truthiness of `result.callId` (`undefined` and `""` are falsy). -/
def callIdTruthy (o : Option String) : Bool :=
  match o with
  | none => false
  | some s => !(s == "")

/-- The first mutation of an entry in the per-entry `try` block:
`call.status = 'processing'; call.callAttempts += 1;
call.lastAttemptAt = new Date();` (persisted right away). -/
def procVersion (t : Nat) (e : BulkCallEntry) : BulkCallEntry :=
  { e with status := CallStatus.processing,
           callAttempts := e.callAttempts + 1,
           lastAttemptAt := some t }

/-- The terminal per-attempt state the entry is saved in after the
dispatch resolves: on `result.success && result.callId`, `completed` with
the provider call id and `errorMessage` cleared; on an unsuccessful
response, `failed` with `result.error || 'Unknown error'`; on a thrown
exception, `failed` with `error.message || 'Processing error'` (the
catch block of the per-entry loop). -/
def finalVersion (o : DispatchOutcome) (e1 : BulkCallEntry) : BulkCallEntry :=
  match o with
  | DispatchOutcome.ok r =>
    if r.success && callIdTruthy r.callId then
      { e1 with status := CallStatus.completed,
                bolnaCallId := r.callId,
                errorMessage := none }
    else
      { e1 with status := CallStatus.failed,
                errorMessage := some (optFalsyOr r.error "Unknown error") }
  | DispatchOutcome.exn msg =>
    { e1 with status := CallStatus.failed,
              errorMessage := some (strFalsyOr msg "Processing error") }

/-- Processing of one entry of a batch (`for (const call of pendingCalls)`
body).  `batchLen` is `pendingCalls.length` of the current batch.  Note
the pacing delay: the source increments the run-wide `processedCount` and
then waits `CALL_DELAY` only when `processedCount < pendingCalls.length`
and no exception was thrown (the catch path skips the delay). -/
def stepEntry (env : Env) (batchLen : Nat) (s : RunState) (e : BulkCallEntry) : RunState :=
  let e1 := procVersion s.clock e
  let o := env.dispatch s.dispatchIdx
  let e2 := finalVersion o e1
  let store2 := saveEntry e2 (saveEntry e1 s.store)
  let evs := s.events ++
    [Event.save s.clock e1,
     Event.dispatch s.clock (formatPhoneNumber e.phone) e.name,
     Event.save s.clock e2]
  let pc := s.processedCount + 1
  match o with
  | DispatchOutcome.exn _ =>
    { store := store2, clock := s.clock, events := evs,
      processedCount := pc, dispatchIdx := s.dispatchIdx + 1 }
  | DispatchOutcome.ok _ =>
    if pc < batchLen then
      { store := store2, clock := s.clock + CALL_DELAY,
        events := evs ++ [Event.sleep s.clock CALL_DELAY],
        processedCount := pc, dispatchIdx := s.dispatchIdx + 1 }
    else
      { store := store2, clock := s.clock, events := evs,
        processedCount := pc, dispatchIdx := s.dispatchIdx + 1 }

/-- One batch: process the fetched entries in order. -/
def processBatch (env : Env) (batch : List BulkCallEntry) (s : RunState) : RunState :=
  batch.foldl (stepEntry env batch.length) s

/-- The `while (true)` loop of `processCallQueue`: fetch a batch, stop if
it is empty, otherwise process it, pause `BATCH_PAUSE`, repeat.  `k`
numbers the fetches for the `fetchFails` oracle; a failing fetch throws to
the run-level `catch` (the boolean result is `true` when the run ended
abnormally).  The source loops unboundedly; here a fuel argument bounds
recursion, and `runLoop_fuel_irrelevant` below proves that any fuel above
the owner's pending count gives the very same result, so the caller's
`store.length + 1` fuel realizes the unbounded loop exactly.
`afterBatch` is the inter-batch `delay(BATCH_PAUSE)`. -/
def afterBatch (s1 : RunState) : RunState :=
  { s1 with clock := s1.clock + BATCH_PAUSE,
            events := s1.events ++ [Event.sleep s1.clock BATCH_PAUSE] }

def runLoop (env : Env) (u : String) : Nat → Nat → RunState → RunState × Bool
  | _, 0, s => (s, true)
  | k, fuel + 1, s =>
    if env.fetchFails k then (s, true)
    else
      let batch := fetchBatch u s.store
      if batch.isEmpty then (s, false)
      else
        runLoop env u (k + 1) fuel (afterBatch (processBatch env batch s))

/-- Fresh run-local state at the start of an invocation
(`processedCount = 0`, nothing dispatched, no trace yet). -/
def initState (store : List BulkCallEntry) : RunState :=
  { store := store, clock := 0, events := [], processedCount := 0, dispatchIdx := 0 }

/-- `processCallQueue(userId)` (lines 225-332): bail out if
`activeProcessors.get(userId)` is set; otherwise mark the owner active,
run the drain loop (its own errors are caught at run level), and in the
`finally` block delete the owner from `activeProcessors`.  The in-memory
`activeProcessors` map is the list of currently marked owner ids; the
result is the map after the invocation plus the final run state. -/
def processCallQueue (env : Env) (active : List String) (store : List BulkCallEntry)
    (u : String) : List String × RunState :=
  if active.contains u then (active, initState store)
  else
    let s := (runLoop env u 0 (store.length + 1) (initState store)).1
    ((u :: active).erase u, s)

/-! ## Upload and retry routes (`src/server/middleware/auth.ts`, bulk-call
router document) and `findDuplicates` (`src/server/utils/fileParser.ts`) -/

/-- A validated contact produced by the file parser
(`ParsedContact` in `src/server/utils/fileParser.ts`). -/
structure ParsedContact where
  name : String
  phone : String
  city : Option String
  email : Option String
  notes : Option String
deriving DecidableEq, Repr

/-- `findDuplicates(newContacts, existingContacts)`: build the set of
existing phones, then collect (in order) the phone of every new contact
already present.  The `{phone: 1}` projections of the store documents are
passed as the list of existing phones. -/
def findDuplicates (newContacts : List ParsedContact) (existingPhones : List String) :
    List String :=
  newContacts.filterMap
    (fun c => if existingPhones.contains c.phone then some c.phone else none)

/-- A document built by the upload route for `insertMany`: contact fields
plus `status: 'pending'` and `callAttempts: 0`.  Mongo assigns the `_id`
(`baseId + position`) and the insertion timestamp `now`. -/
def mkQueueEntry (u : String) (idv now : Nat) (c : ParsedContact) : BulkCallEntry :=
  { id := idv, userId := u, name := c.name, phone := c.phone,
    city := c.city, email := c.email, notes := c.notes,
    status := CallStatus.pending, bolnaCallId := none, errorMessage := none,
    callAttempts := 0, lastAttemptAt := none, createdAt := now }

/-- Core of the `/upload` handler after parsing (lines 357-438):
`checkDuplicates` is `req.body.checkDuplicates === 'true'`; when set, the
duplicate list is computed against the owner's stored entries whose phone
occurs among the uploaded phones; the parsed contacts are always inserted
(appended) as new `pending` rows.  Returns the new store and the
`duplicates` array of the JSON response. -/
def uploadContacts (u : String) (checkDupField : Option String)
    (contacts : List ParsedContact) (store : List BulkCallEntry)
    (baseId now : Nat) : List BulkCallEntry × List String :=
  let checkDuplicates := checkDupField == some "true"
  let existing := store.filter
    (fun e => e.userId == u && (contacts.map (fun c => c.phone)).contains e.phone)
  let duplicates :=
    if checkDuplicates then findDuplicates contacts (existing.map (fun e => e.phone))
    else []
  let newEntries := contacts.enum.map (fun p => mkQueueEntry u (baseId + p.1) now p.2)
  (store ++ newEntries, duplicates)

/-- The `/upload` route: parsed files with no valid contact are rejected
with a 400 before anything is inserted (`none`); otherwise the insert
path above runs. -/
def uploadRoute (u : String) (checkDupField : Option String)
    (contacts : List ParsedContact) (store : List BulkCallEntry)
    (baseId now : Nat) : Option (List BulkCallEntry × List String) :=
  if contacts.isEmpty then none
  else some (uploadContacts u checkDupField contacts store baseId now)

/-- The filter of the `/retry-all` `updateMany`: the owner's failed
entries. -/
def isFailedFor (u : String) (e : BulkCallEntry) : Bool :=
  e.userId == u && e.status == CallStatus.failed

/-- `updateMany({ userId, status: 'failed' }, { $set: { status: 'pending' } })`
of the `/retry-all` handler (lines 626-655): reset the matching entries
and report Mongo's `modifiedCount` (every matched entry changes status, so
it equals the matched count). -/
def retryAll (u : String) (store : List BulkCallEntry) : List BulkCallEntry × Nat :=
  (store.map (fun e => if isFailedFor u e then { e with status := CallStatus.pending } else e),
   store.countP (isFailedFor u))

/-- JSON outcome of the `/retry-all` route: 404 when nothing was reset,
otherwise the `retriedCount` of the 200 response. -/
inductive RetryAllResp
  | notFound
  | ok (retriedCount : Nat)
deriving DecidableEq, Repr

/-- The `/retry-all` handler: run the reset, answer 404 if
`modifiedCount === 0`, else answer with `retriedCount = modifiedCount`
(and re-trigger the processor in the background). -/
def retryAllRoute (u : String) (store : List BulkCallEntry) :
    List BulkCallEntry × RetryAllResp :=
  let r := retryAll u store
  if r.2 == 0 then (r.1, RetryAllResp.notFound) else (r.1, RetryAllResp.ok r.2)

/-! ## Store lemmas -/

/-- The multiset of `_id`s of a store, in order. -/
def idsOf (l : List BulkCallEntry) : List Nat := l.map (fun e => e.id)

theorem length_saveEntry (p : BulkCallEntry) (l : List BulkCallEntry) :
    (saveEntry p l).length = l.length :=
  List.length_map l _

theorem saveEntry_cons (p x : BulkCallEntry) (l : List BulkCallEntry) :
    saveEntry p (x :: l) =
      (if (x.id == p.id) = true then p else x) :: saveEntry p l := rfl

theorem idsOf_cons (x : BulkCallEntry) (l : List BulkCallEntry) :
    idsOf (x :: l) = x.id :: idsOf l := rfl

theorem idsOf_saveEntry (p : BulkCallEntry) (l : List BulkCallEntry) :
    idsOf (saveEntry p l) = idsOf l := by
  induction l with
  | nil => rfl
  | cons x l ih =>
    rw [saveEntry_cons, idsOf_cons, idsOf_cons]
    by_cases h : (x.id == p.id) = true
    · simp only [h, if_true]
      rw [show p.id = x.id from (beq_iff_eq.mp h).symm, ih]
    · rw [if_neg h, ih]

theorem mem_saveEntry {x p : BulkCallEntry} {l : List BulkCallEntry}
    (hx : x ∈ saveEntry p l) : x = p ∨ (x ∈ l ∧ (x.id == p.id) = false) := by
  rcases List.mem_map.mp hx with ⟨y, hy, hxy⟩
  by_cases h : (y.id == p.id) = true
  · left
    rw [← hxy]
    simp [h]
  · right
    have hxe : x = y := by rw [← hxy]; simp [h]
    subst hxe
    exact ⟨hy, Bool.of_not_eq_true h⟩

theorem countP_saveEntry_le (u : String) (p : BulkCallEntry) (l : List BulkCallEntry)
    (hp : isPendingFor u p = false) :
    (saveEntry p l).countP (isPendingFor u) ≤ l.countP (isPendingFor u) := by
  induction l with
  | nil => simp [saveEntry]
  | cons x l ih =>
    rw [saveEntry_cons, List.countP_cons, List.countP_cons]
    have hhead : (if isPendingFor u (if (x.id == p.id) = true then p else x) = true then 1 else 0)
        ≤ (if isPendingFor u x = true then 1 else 0) := by
      by_cases h : (x.id == p.id) = true
      · simp [h, hp]
      · simp [h]
    omega

theorem countP_saveEntry_lt (u : String) {p a : BulkCallEntry} {l : List BulkCallEntry}
    (ha : a ∈ l) (hpa : isPendingFor u a = true) (hid : a.id = p.id)
    (hp : isPendingFor u p = false) :
    (saveEntry p l).countP (isPendingFor u) < l.countP (isPendingFor u) := by
  induction l with
  | nil => cases ha
  | cons x l ih =>
    rw [saveEntry_cons, List.countP_cons, List.countP_cons]
    rcases List.mem_cons.mp ha with rfl | ha
    · have hxi : (a.id == p.id) = true := beq_iff_eq.mpr hid
      have hhead : (if isPendingFor u (if (a.id == p.id) = true then p else a) = true then 1 else 0)
          = 0 := by simp [hxi, hp]
      have hold : (if isPendingFor u a = true then 1 else 0) = 1 := by simp [hpa]
      have hle := countP_saveEntry_le u p l hp
      omega
    · have hlt := ih ha
      have hhead : (if isPendingFor u (if (x.id == p.id) = true then p else x) = true then 1 else 0)
          ≤ (if isPendingFor u x = true then 1 else 0) := by
        by_cases h : (x.id == p.id) = true
        · simp [h, hp]
        · simp [h]
      omega

/-! ## Per-entry processing lemmas -/

/-- The sleep the source may append after an entry: `CALL_DELAY` when no
exception was thrown and the incremented `processedCount` is still below
the current batch length, nothing otherwise. -/
def pacingPart (env : Env) (batchLen : Nat) (s : RunState) : List Event :=
  match env.dispatch s.dispatchIdx with
  | DispatchOutcome.exn _ => []
  | DispatchOutcome.ok _ =>
    if s.processedCount + 1 < batchLen then [Event.sleep s.clock CALL_DELAY] else []

theorem stepEntry_store (env : Env) (bl : Nat) (s : RunState) (e : BulkCallEntry) :
    (stepEntry env bl s e).store =
      saveEntry (finalVersion (env.dispatch s.dispatchIdx) (procVersion s.clock e))
        (saveEntry (procVersion s.clock e) s.store) := by
  simp only [stepEntry]
  rcases hd : env.dispatch s.dispatchIdx with r | msg
  · by_cases h : s.processedCount + 1 < bl
    · simp [h]
    · simp [h]
  · simp

theorem stepEntry_events (env : Env) (bl : Nat) (s : RunState) (e : BulkCallEntry) :
    (stepEntry env bl s e).events = s.events ++
      [Event.save s.clock (procVersion s.clock e),
       Event.dispatch s.clock (formatPhoneNumber e.phone) e.name,
       Event.save s.clock (finalVersion (env.dispatch s.dispatchIdx) (procVersion s.clock e))]
      ++ pacingPart env bl s := by
  simp only [stepEntry, pacingPart]
  rcases hd : env.dispatch s.dispatchIdx with r | msg
  · by_cases h : s.processedCount + 1 < bl
    · simp [h]
    · simp [h]
  · simp

theorem isSome_of_callIdTruthy {o : Option String} (h : callIdTruthy o = true) :
    o.isSome = true := by
  cases o with
  | none => exact absurd h (by simp [callIdTruthy])
  | some s => rfl

theorem finalVersion_id (o : DispatchOutcome) (e1 : BulkCallEntry) :
    (finalVersion o e1).id = e1.id := by
  rcases o with r | msg
  · simp only [finalVersion]
    by_cases h : (r.success && callIdTruthy r.callId) = true
    · simp [h]
    · simp [h]
  · rfl

theorem finalVersion_attempts (o : DispatchOutcome) (e1 : BulkCallEntry) :
    (finalVersion o e1).callAttempts = e1.callAttempts := by
  rcases o with r | msg
  · simp only [finalVersion]
    by_cases h : (r.success && callIdTruthy r.callId) = true
    · simp [h]
    · simp [h]
  · rfl

theorem finalVersion_fields (o : DispatchOutcome) (e1 : BulkCallEntry) :
    ((finalVersion o e1).status = CallStatus.completed ∧
     (finalVersion o e1).errorMessage = none ∧
     (finalVersion o e1).bolnaCallId.isSome = true) ∨
    ((finalVersion o e1).status = CallStatus.failed ∧
     (finalVersion o e1).errorMessage.isSome = true) := by
  rcases o with r | msg
  · by_cases h : (r.success && callIdTruthy r.callId) = true
    · left
      refine ⟨by simp [finalVersion, h], by simp [finalVersion, h], ?_⟩
      simp only [finalVersion, h, if_true]
      exact isSome_of_callIdTruthy (Bool.and_elim_right h)
    · right
      simp [finalVersion, h]
  · right
    simp [finalVersion]

theorem finalVersion_status_terminal (o : DispatchOutcome) (e1 : BulkCallEntry) :
    (finalVersion o e1).status = CallStatus.completed ∨
    (finalVersion o e1).status = CallStatus.failed := by
  rcases finalVersion_fields o e1 with h | h
  · exact Or.inl h.1
  · exact Or.inr h.1

theorem isPendingFor_procVersion (u : String) (t : Nat) (e : BulkCallEntry) :
    isPendingFor u (procVersion t e) = false := by
  simp [isPendingFor, procVersion]

theorem isPendingFor_of_status_ne {u : String} {e : BulkCallEntry}
    (h : e.status ≠ CallStatus.pending) : isPendingFor u e = false := by
  simp [isPendingFor, h]

theorem isPendingFor_finalVersion (u : String) (o : DispatchOutcome) (e1 : BulkCallEntry) :
    isPendingFor u (finalVersion o e1) = false := by
  rcases finalVersion_status_terminal o e1 with h | h <;>
    exact isPendingFor_of_status_ne (by rw [h]; intro hc; cases hc)

/-- An entry that has gone through one full per-entry processing step:
it is terminal for this attempt and has been attempted at least once. -/
def TerminalAttempt (x : BulkCallEntry) : Prop :=
  (x.status = CallStatus.completed ∨ x.status = CallStatus.failed) ∧ 1 ≤ x.callAttempts

theorem stepEntry_mem {env : Env} {bl : Nat} {s : RunState} {e x : BulkCallEntry}
    (hx : x ∈ (stepEntry env bl s e).store) : TerminalAttempt x ∨ x ∈ s.store := by
  rw [stepEntry_store] at hx
  rcases mem_saveEntry hx with rfl | ⟨hx2, hne⟩
  · left
    refine ⟨finalVersion_status_terminal _ _, ?_⟩
    rw [finalVersion_attempts]
    simp [procVersion]
  · rcases mem_saveEntry hx2 with rfl | ⟨hx3, _⟩
    · exfalso
      rw [finalVersion_id] at hne
      simp at hne
    · right
      exact hx3

theorem stepEntry_idsOf (env : Env) (bl : Nat) (s : RunState) (e : BulkCallEntry) :
    idsOf (stepEntry env bl s e).store = idsOf s.store := by
  rw [stepEntry_store, idsOf_saveEntry, idsOf_saveEntry]

theorem stepEntry_pendingCount_le (u : String) (env : Env) (bl : Nat) (s : RunState)
    (e : BulkCallEntry) :
    pendingCount u (stepEntry env bl s e).store ≤ pendingCount u s.store := by
  rw [pendingCount, pendingCount, stepEntry_store]
  calc (saveEntry (finalVersion (env.dispatch s.dispatchIdx) (procVersion s.clock e))
          (saveEntry (procVersion s.clock e) s.store)).countP (isPendingFor u)
      ≤ (saveEntry (procVersion s.clock e) s.store).countP (isPendingFor u) :=
        countP_saveEntry_le u _ _ (isPendingFor_finalVersion u _ _)
    _ ≤ s.store.countP (isPendingFor u) :=
        countP_saveEntry_le u _ _ (isPendingFor_procVersion u _ _)

theorem stepEntry_pendingCount_lt (u : String) (env : Env) (bl : Nat) {s : RunState}
    {e : BulkCallEntry} (he : e ∈ s.store) (hpe : isPendingFor u e = true) :
    pendingCount u (stepEntry env bl s e).store < pendingCount u s.store := by
  rw [pendingCount, pendingCount, stepEntry_store]
  have h1 : (saveEntry (procVersion s.clock e) s.store).countP (isPendingFor u) <
      s.store.countP (isPendingFor u) :=
    countP_saveEntry_lt u he hpe rfl (isPendingFor_procVersion u _ _)
  have h2 := countP_saveEntry_le u
    (finalVersion (env.dispatch s.dispatchIdx) (procVersion s.clock e))
    (saveEntry (procVersion s.clock e) s.store) (isPendingFor_finalVersion u _ _)
  omega

/-! ## Fetch lemmas -/

theorem mem_insertByCreated {x e : BulkCallEntry} :
    ∀ {l : List BulkCallEntry}, x ∈ insertByCreated e l → x = e ∨ x ∈ l := by
  intro l
  induction l with
  | nil =>
    intro h
    exact Or.inl (List.mem_singleton.mp h)
  | cons a l ih =>
    intro h
    by_cases hc : e.createdAt ≤ a.createdAt
    · rw [insertByCreated, if_pos hc] at h
      rcases List.mem_cons.mp h with rfl | h
      · exact Or.inl rfl
      · exact Or.inr h
    · rw [insertByCreated, if_neg hc] at h
      rcases List.mem_cons.mp h with rfl | h
      · exact Or.inr (List.mem_cons_self _ _)
      · rcases ih h with rfl | h
        · exact Or.inl rfl
        · exact Or.inr (List.mem_cons_of_mem _ h)

theorem mem_sortByCreated {x : BulkCallEntry} :
    ∀ {l : List BulkCallEntry}, x ∈ sortByCreated l → x ∈ l := by
  intro l
  induction l with
  | nil => intro h; cases h
  | cons a l ih =>
    intro h
    rcases mem_insertByCreated h with rfl | h
    · exact List.mem_cons_self _ _
    · exact List.mem_cons_of_mem _ (ih h)

theorem length_insertByCreated (e : BulkCallEntry) :
    ∀ (l : List BulkCallEntry), (insertByCreated e l).length = l.length + 1 := by
  intro l
  induction l with
  | nil => rfl
  | cons a l ih =>
    by_cases hc : e.createdAt ≤ a.createdAt
    · rw [insertByCreated, if_pos hc]
      rfl
    · rw [insertByCreated, if_neg hc, List.length_cons, ih]
      rfl

theorem length_sortByCreated :
    ∀ (l : List BulkCallEntry), (sortByCreated l).length = l.length := by
  intro l
  induction l with
  | nil => rfl
  | cons a l ih =>
    show (insertByCreated a (sortByCreated l)).length = l.length + 1
    rw [length_insertByCreated, ih]

theorem fetchBatch_mem {u : String} {store : List BulkCallEntry} {x : BulkCallEntry}
    (hx : x ∈ fetchBatch u store) : x ∈ store ∧ isPendingFor u x = true := by
  have h1 : x ∈ sortByCreated (store.filter (isPendingFor u)) :=
    List.take_subset _ _ hx
  have h2 := mem_sortByCreated h1
  exact ⟨(List.mem_filter.mp h2).1, (List.mem_filter.mp h2).2⟩

theorem fetchBatch_eq_nil_iff {u : String} {store : List BulkCallEntry} :
    fetchBatch u store = [] ↔ pendingCount u store = 0 := by
  rw [fetchBatch, pendingCount, List.countP_eq_length_filter]
  constructor
  · intro h
    cases hs : sortByCreated (store.filter (isPendingFor u)) with
    | nil =>
      have hlen := length_sortByCreated (store.filter (isPendingFor u))
      rw [hs] at hlen
      exact hlen.symm
    | cons a t =>
      rw [hs] at h
      exact absurd h (by simp [MAX_CONCURRENT_CALLS])
  · intro h
    have hfil : store.filter (isPendingFor u) = [] :=
      List.length_eq_zero.mp h
    rw [hfil]
    rfl

/-! ## Batch and loop lemmas -/

theorem foldl_step_mem {env : Env} {bl : Nat} {x : BulkCallEntry} :
    ∀ {batch : List BulkCallEntry} {s : RunState},
      x ∈ (batch.foldl (stepEntry env bl) s).store → TerminalAttempt x ∨ x ∈ s.store := by
  intro batch
  induction batch with
  | nil => intro s hx; exact Or.inr hx
  | cons b batch ih =>
    intro s hx
    rw [List.foldl_cons] at hx
    rcases ih hx with h | h
    · exact Or.inl h
    · exact stepEntry_mem h

theorem processBatch_mem {env : Env} {batch : List BulkCallEntry} {s : RunState}
    {x : BulkCallEntry} (hx : x ∈ (processBatch env batch s).store) :
    TerminalAttempt x ∨ x ∈ s.store :=
  foldl_step_mem hx

theorem foldl_step_idsOf (env : Env) (bl : Nat) :
    ∀ (batch : List BulkCallEntry) (s : RunState),
      idsOf ((batch.foldl (stepEntry env bl) s).store) = idsOf s.store := by
  intro batch
  induction batch with
  | nil => intro s; rfl
  | cons b batch ih =>
    intro s
    rw [List.foldl_cons, ih, stepEntry_idsOf]

theorem processBatch_idsOf (env : Env) (batch : List BulkCallEntry) (s : RunState) :
    idsOf (processBatch env batch s).store = idsOf s.store :=
  foldl_step_idsOf env batch.length batch s

theorem foldl_step_pendingCount_le (u : String) (env : Env) (bl : Nat) :
    ∀ (batch : List BulkCallEntry) (s : RunState),
      pendingCount u ((batch.foldl (stepEntry env bl) s).store) ≤ pendingCount u s.store := by
  intro batch
  induction batch with
  | nil => intro s; exact Nat.le_refl _
  | cons b batch ih =>
    intro s
    rw [List.foldl_cons]
    exact Nat.le_trans (ih _) (stepEntry_pendingCount_le u env bl s b)

theorem processBatch_pendingCount_lt (u : String) (env : Env) {s : RunState}
    {b : BulkCallEntry} {rest : List BulkCallEntry}
    (hb : fetchBatch u s.store = b :: rest) :
    pendingCount u (processBatch env (fetchBatch u s.store) s).store <
      pendingCount u s.store := by
  have hbm : b ∈ fetchBatch u s.store := by rw [hb]; exact List.mem_cons_self _ _
  obtain ⟨hbs, hbp⟩ := fetchBatch_mem hbm
  rw [processBatch, hb, List.foldl_cons]
  refine Nat.lt_of_le_of_lt (foldl_step_pendingCount_le u env _ rest _) ?_
  exact stepEntry_pendingCount_lt u env _ hbs hbp

theorem runLoop_zero (env : Env) (u : String) (k : Nat) (s : RunState) :
    runLoop env u k 0 s = (s, true) := rfl

theorem runLoop_succ (env : Env) (u : String) (k fuel : Nat) (s : RunState) :
    runLoop env u k (fuel + 1) s =
      if env.fetchFails k then (s, true)
      else
        if (fetchBatch u s.store).isEmpty then (s, false)
        else
          runLoop env u (k + 1) fuel
            (afterBatch (processBatch env (fetchBatch u s.store) s)) := rfl

theorem afterBatch_store (s1 : RunState) : (afterBatch s1).store = s1.store := rfl

theorem runLoop_mem {env : Env} {u : String} {x : BulkCallEntry} :
    ∀ (fuel k : Nat) (s : RunState), x ∈ ((runLoop env u k fuel s).1.store) →
      TerminalAttempt x ∨ x ∈ s.store := by
  intro fuel
  induction fuel with
  | zero =>
    intro k s hx
    rw [runLoop_zero] at hx
    exact Or.inr hx
  | succ fuel ih =>
    intro k s hx
    rw [runLoop_succ] at hx
    by_cases hf : env.fetchFails k = true
    · rw [if_pos hf] at hx
      exact Or.inr hx
    · rw [if_neg hf] at hx
      by_cases hb : (fetchBatch u s.store).isEmpty = true
      · rw [if_pos hb] at hx
        exact Or.inr hx
      · rw [if_neg hb] at hx
        rcases ih (k + 1) _ hx with h | h
        · exact Or.inl h
        · rw [afterBatch_store] at h
          exact processBatch_mem h

theorem runLoop_idsOf (env : Env) (u : String) :
    ∀ (fuel k : Nat) (s : RunState),
      idsOf ((runLoop env u k fuel s).1.store) = idsOf s.store := by
  intro fuel
  induction fuel with
  | zero =>
    intro k s
    rw [runLoop_zero]
  | succ fuel ih =>
    intro k s
    rw [runLoop_succ]
    by_cases hf : env.fetchFails k = true
    · rw [if_pos hf]
    · rw [if_neg hf]
      by_cases hb : (fetchBatch u s.store).isEmpty = true
      · rw [if_pos hb]
      · rw [if_neg hb, ih, afterBatch_store, processBatch_idsOf]

theorem fetchBatch_cons_of_not_empty {u : String} {store : List BulkCallEntry}
    (hb : ¬((fetchBatch u store).isEmpty = true)) :
    ∃ b rest, fetchBatch u store = b :: rest := by
  cases hfb : fetchBatch u store with
  | nil => exact absurd (by rw [hfb]; rfl) hb
  | cons b rest => exact ⟨b, rest, rfl⟩

/-- With a healthy store, any fuel above the owner's current pending count
drains the queue completely. -/
theorem runLoop_drain (env : Env) (u : String) (hf : ∀ k, env.fetchFails k = false) :
    ∀ (fuel k : Nat) (s : RunState), pendingCount u s.store < fuel →
      pendingCount u ((runLoop env u k fuel s).1.store) = 0 := by
  intro fuel
  induction fuel with
  | zero =>
    intro k s h
    exact absurd h (Nat.not_lt_zero _)
  | succ fuel ih =>
    intro k s h
    rw [runLoop_succ, if_neg (by rw [hf k]; exact Bool.false_ne_true)]
    by_cases hb : (fetchBatch u s.store).isEmpty = true
    · rw [if_pos hb]
      exact fetchBatch_eq_nil_iff.mp (List.isEmpty_iff.mp hb)
    · rw [if_neg hb]
      obtain ⟨b, rest, hbr⟩ := fetchBatch_cons_of_not_empty hb
      have hlt := processBatch_pendingCount_lt u env hbr
      apply ih
      rw [afterBatch_store]
      omega

/-- Fuel does not matter once it exceeds the pending count: the
fuel-indexed `runLoop` computes the source's unbounded `while (true)`
loop. -/
theorem runLoop_fuel_irrelevant (env : Env) (u : String) :
    ∀ (f1 f2 k : Nat) (s : RunState), pendingCount u s.store < f1 →
      pendingCount u s.store < f2 → runLoop env u k f1 s = runLoop env u k f2 s := by
  intro f1
  induction f1 with
  | zero =>
    intro f2 k s h1 h2
    exact absurd h1 (Nat.not_lt_zero _)
  | succ f1 ih =>
    intro f2 k s h1 h2
    cases f2 with
    | zero => exact absurd h2 (Nat.not_lt_zero _)
    | succ f2 =>
      rw [runLoop_succ, runLoop_succ]
      by_cases hf : env.fetchFails k = true
      · rw [if_pos hf, if_pos hf]
      · rw [if_neg hf, if_neg hf]
        by_cases hb : (fetchBatch u s.store).isEmpty = true
        · rw [if_pos hb, if_pos hb]
        · rw [if_neg hb, if_neg hb]
          obtain ⟨b, rest, hbr⟩ := fetchBatch_cons_of_not_empty hb
          have hlt := processBatch_pendingCount_lt u env hbr
          have hs2 : pendingCount u (afterBatch (processBatch env (fetchBatch u s.store) s)).store <
              pendingCount u s.store := by
            rw [afterBatch_store]
            exact hlt
          exact ih f2 (k + 1) _ (by omega) (by omega)

/-! ## Whole-run lemmas -/

theorem processCallQueue_mem {env : Env} {active : List String}
    {store : List BulkCallEntry} {u : String} {x : BulkCallEntry}
    (hx : x ∈ (processCallQueue env active store u).2.store) :
    TerminalAttempt x ∨ x ∈ store := by
  unfold processCallQueue at hx
  by_cases ha : active.contains u = true
  · rw [if_pos ha] at hx
    exact Or.inr hx
  · rw [if_neg ha] at hx
    exact runLoop_mem (store.length + 1) 0 (initState store) hx

theorem processCallQueue_idsOf (env : Env) (active : List String)
    (store : List BulkCallEntry) (u : String) :
    idsOf (processCallQueue env active store u).2.store = idsOf store := by
  unfold processCallQueue
  by_cases ha : active.contains u = true
  · rw [if_pos ha]
    rfl
  · rw [if_neg ha]
    exact runLoop_idsOf env u (store.length + 1) 0 (initState store)

theorem processCallQueue_pendingCount_eq_zero (env : Env) (active : List String)
    (store : List BulkCallEntry) (u : String)
    (ha : active.contains u = false) (hf : ∀ k, env.fetchFails k = false) :
    pendingCount u (processCallQueue env active store u).2.store = 0 := by
  unfold processCallQueue
  rw [if_neg (by rw [ha]; exact Bool.false_ne_true)]
  show pendingCount u ((runLoop env u 0 (store.length + 1) (initState store)).1.store) = 0
  apply runLoop_drain env u hf
  exact Nat.lt_succ_of_le (List.countP_le_length _)

/-- `entryTerminal i x` holds when `x` does not carry the id `i`, or is in
a terminal per-attempt state with at least one attempt recorded. -/
def entryTerminal (i : Nat) (x : BulkCallEntry) : Bool :=
  (!(x.id == i)) ||
    ((x.status == CallStatus.completed || x.status == CallStatus.failed) &&
      decide (1 ≤ x.callAttempts))

/-- `drainedFor i l`: the store `l` still holds the id `i` and every entry
carrying it is `completed` or `failed` with `callAttempts ≥ 1`. -/
def drainedFor (i : Nat) (l : List BulkCallEntry) : Bool :=
  l.all (entryTerminal i) && l.any (fun x => x.id == i)

/-- C1: every entry of the owner that is `pending` when
`processCallQueue(userId)` starts ends, provided the run leaves no pending
entry behind, in status `completed` or `failed` with `callAttempts ≥ 1`
(the entry is still present — the processor never deletes rows). -/
theorem processCallQueue_drains_pending (env : Env) (active : List String)
    (store : List BulkCallEntry) (u : String) (e : BulkCallEntry)
    (he : e ∈ store) (hu : e.userId = u) (hp : e.status = CallStatus.pending)
    (hids : (idsOf store).Nodup)
    (hdone : pendingCount u (processCallQueue env active store u).2.store = 0) :
    drainedFor e.id (processCallQueue env active store u).2.store = true := by
  rw [drainedFor, Bool.and_eq_true]
  constructor
  · rw [List.all_eq_true]
    intro x hx
    by_cases hxi : (x.id == e.id) = true
    · rcases processCallQueue_mem hx with hterm | hxs
      · rw [entryTerminal, Bool.or_eq_true, Bool.and_eq_true]
        refine Or.inr ⟨?_, decide_eq_true hterm.2⟩
        rw [Bool.or_eq_true]
        rcases hterm.1 with h | h
        · exact Or.inl (beq_iff_eq.mpr h)
        · exact Or.inr (beq_iff_eq.mpr h)
      · exfalso
        have hxe : x = e :=
          List.inj_on_of_nodup_map hids hxs he (beq_iff_eq.mp hxi)
        subst hxe
        have hpend : isPendingFor u x = true := by
          rw [isPendingFor, hu, hp]
          simp
        have hpos : 0 < pendingCount u (processCallQueue env active store u).2.store := by
          rw [pendingCount]
          exact List.countP_pos_iff.mpr ⟨x, hx, hpend⟩
        omega
    · rw [entryTerminal, Bool.or_eq_true]
      exact Or.inl (by simp [Bool.of_not_eq_true hxi])
  · rw [List.any_eq_true]
    have hide : e.id ∈ idsOf (processCallQueue env active store u).2.store := by
      rw [processCallQueue_idsOf]
      exact List.mem_map_of_mem _ he
    rcases List.mem_map.mp hide with ⟨x, hxf, hxe⟩
    exact ⟨x, hxf, beq_iff_eq.mpr hxe⟩

/-- A concrete owner entry used by the witnesses. -/
def qe1 : BulkCallEntry :=
  { id := 1, userId := "u7", name := "Asha", phone := "9876543210",
    city := none, email := none, notes := none,
    status := CallStatus.pending, bolnaCallId := none, errorMessage := none,
    callAttempts := 0, lastAttemptAt := none, createdAt := 0 }

def exStore : List BulkCallEntry := [qe1]

/-- Oracle in which every dispatch succeeds and the store is healthy. -/
def envOk : Env :=
  { dispatch := fun _ => DispatchOutcome.ok
      { success := true, callId := some "exec-1",
        message := some "Call initiated successfully", error := none },
    fetchFails := fun _ => false }

theorem processCallQueue_drains_pending_witness :
    drainedFor 1 (processCallQueue envOk [] exStore "u7").2.store = true :=
  processCallQueue_drains_pending envOk [] exStore "u7" qe1
    (List.mem_singleton.mpr rfl) rfl rfl (by decide) (by decide)

/-- C3: invoking the processor while `activeProcessors` already holds the
owner returns at once: the marker set and the store are untouched and the
run state is still the fresh one — no fetch, no dispatch, no event, no
`callAttempts` increment. -/
theorem processCallQueue_noop_when_active (env : Env) (active : List String)
    (store : List BulkCallEntry) (u : String) (ha : active.contains u = true) :
    processCallQueue env active store u = (active, initState store) := by
  unfold processCallQueue
  rw [if_pos ha]

theorem processCallQueue_noop_when_active_witness :
    processCallQueue envOk ["u7"] exStore "u7" = (["u7"], initState exStore) :=
  processCallQueue_noop_when_active envOk ["u7"] exStore "u7" (by decide)

/-- Oracle whose very first fetch throws: the run fails at run level. -/
def envFetchFail : Env :=
  { dispatch := fun _ => DispatchOutcome.ok
      { success := true, callId := some "exec-1", message := none, error := none },
    fetchFails := fun _ => true }

/-- C4: an invocation that enters the processing loop always leaves the
active-processors map without the owner — the `finally` releases the
marker on every exit path, for every oracle, including one whose store
fetches fail. -/
theorem processCallQueue_releases_marker (env : Env) (active : List String)
    (store : List BulkCallEntry) (u : String) (ha : active.contains u = false) :
    ((processCallQueue env active store u).1.contains u) = false := by
  unfold processCallQueue
  rw [if_neg (by rw [ha]; exact Bool.false_ne_true)]
  show (((u :: active).erase u).contains u) = false
  rw [List.erase_cons_head]
  exact ha

theorem processCallQueue_releases_marker_witness :
    ((processCallQueue envFetchFail [] exStore "u7").1.contains "u7") = false :=
  processCallQueue_releases_marker envFetchFail [] exStore "u7" rfl

/-- Oracle in which every dispatch throws an exception. -/
def envExn : Env :=
  { dispatch := fun _ => DispatchOutcome.exn "boom",
    fetchFails := fun _ => false }

/-- C6: a thrown exception while processing one entry is caught by the
per-entry `catch`: the entry is persisted as `failed` with the exception
message (or `'Processing error'` when the message is empty) in
`errorMessage` — and the run keeps going: for every oracle, exceptions
included, a run with a healthy store still drains the owner's queue to
zero pending entries. -/
theorem exception_isolated_and_run_drains (env : Env) (active : List String)
    (store : List BulkCallEntry) (u : String) (bl : Nat) (s : RunState)
    (e : BulkCallEntry) (msg : String)
    (ha : active.contains u = false) (hf : ∀ k, env.fetchFails k = false)
    (hexn : env.dispatch s.dispatchIdx = DispatchOutcome.exn msg) :
    pendingCount u (processCallQueue env active store u).2.store = 0 ∧
    (stepEntry env bl s e).store =
      saveEntry
        { procVersion s.clock e with
            status := CallStatus.failed,
            errorMessage := some (strFalsyOr msg "Processing error") }
        (saveEntry (procVersion s.clock e) s.store) := by
  refine ⟨processCallQueue_pendingCount_eq_zero env active store u ha hf, ?_⟩
  rw [stepEntry_store, hexn]
  rfl

theorem exception_isolated_and_run_drains_witness :
    pendingCount "u7" (processCallQueue envExn [] exStore "u7").2.store = 0 ∧
    (stepEntry envExn 1 (initState exStore) qe1).store =
      saveEntry
        { procVersion (initState exStore).clock qe1 with
            status := CallStatus.failed,
            errorMessage := some (strFalsyOr "boom" "Processing error") }
        (saveEntry (procVersion (initState exStore).clock qe1) (initState exStore).store) :=
  exception_isolated_and_run_drains envExn [] exStore "u7" 1 (initState exStore) qe1 "boom"
    rfl (fun _ => rfl) rfl

/-! ## Pacing of one run (claim C2) -/

/-- The clock values at which the run issued its dispatch calls. -/
def dispatchTimes (evs : List Event) : List Nat :=
  evs.filterMap (fun ev => match ev with
    | Event.dispatch t _ _ => some t
    | _ => none)

/-- A pending entry of owner `"u"` with `_id` and `createdAt` equal to `i`. -/
def mkPending (i : Nat) : BulkCallEntry :=
  { id := i, userId := "u", name := "contact", phone := "9876543210",
    city := none, email := none, notes := none,
    status := CallStatus.pending, bolnaCallId := none, errorMessage := none,
    callAttempts := 0, lastAttemptAt := none, createdAt := i }

/-- Seven pending entries: they are fetched as one batch of five and one
batch of two. -/
def store7 : List BulkCallEntry := (List.range 7).map (fun i => mkPending (i + 1))

/-- Every dispatch resolves successfully and the store is healthy. -/
def env7 : Env :=
  { dispatch := fun _ => DispatchOutcome.ok
      { success := true, callId := some "exec-7", message := none, error := none },
    fetchFails := fun _ => false }

/-- C2 (exhibiting the defect): with seven pending entries — batches of
five and two — the run dispatches at 0 s, 2 s, 4 s, 6 s, 8 s and then
twice at 9 s: the second batch gets no pacing delay at all, because the
source compares the run-cumulative `processedCount` against the current
batch's length.  Only 9 s separate the first and last dispatch, below the
(N−1)×2 s = 12 s the claim requires for N = 7. -/
theorem pacing_gap_missing_after_first_batch :
    dispatchTimes (processCallQueue env7 [] store7 "u").2.events =
      [0, 2000, 4000, 6000, 8000, 9000, 9000] ∧
    9000 - 0 < (7 - 1) * CALL_DELAY := by
  constructor
  · decide
  · decide

/-! ## Trace structure of a run (claim C5) -/

/-- Well-formed processor traces: a sequence of stand-alone sleeps and
three-event entry blocks.  A block is a persisted `processing` write (with
at least one attempt recorded and `lastAttemptAt` stamped), then the
dispatch call, then the persisted terminal write for the same `_id` and
attempt count — `completed` with a provider call id and no error message,
or `failed` with an error message. -/
inductive BlocksOK : List Event → Prop
  | nil : BlocksOK []
  | sleep (t ms : Nat) (rest : List Event) :
      BlocksOK rest → BlocksOK (Event.sleep t ms :: rest)
  | block (t1 t2 t3 : Nat) (ph nm : String) (e1 e2 : BulkCallEntry) (rest : List Event) :
      e1.status = CallStatus.processing →
      1 ≤ e1.callAttempts →
      e1.lastAttemptAt = some t1 →
      e2.id = e1.id →
      e2.callAttempts = e1.callAttempts →
      ((e2.status = CallStatus.completed ∧ e2.errorMessage = none ∧
          e2.bolnaCallId.isSome = true) ∨
       (e2.status = CallStatus.failed ∧ e2.errorMessage.isSome = true)) →
      BlocksOK rest →
      BlocksOK (Event.save t1 e1 :: Event.dispatch t2 ph nm :: Event.save t3 e2 :: rest)

theorem blocksOK_append {l1 l2 : List Event} (h1 : BlocksOK l1) (h2 : BlocksOK l2) :
    BlocksOK (l1 ++ l2) := by
  induction h1 with
  | nil => exact h2
  | sleep t ms rest _ ih => exact BlocksOK.sleep t ms _ ih
  | block t1 t2 t3 ph nm e1 e2 rest p1 p2 p3 p4 p5 p6 _ ih =>
    exact BlocksOK.block t1 t2 t3 ph nm e1 e2 _ p1 p2 p3 p4 p5 p6 ih

theorem blocksOK_pacingPart (env : Env) (bl : Nat) (s : RunState) :
    BlocksOK (pacingPart env bl s) := by
  rw [pacingPart]
  rcases env.dispatch s.dispatchIdx with r | msg
  · by_cases h : s.processedCount + 1 < bl
    · rw [if_pos h]
      exact BlocksOK.sleep _ _ _ BlocksOK.nil
    · rw [if_neg h]
      exact BlocksOK.nil
  · exact BlocksOK.nil

theorem blocksOK_stepEntry {env : Env} {bl : Nat} {s : RunState} (e : BulkCallEntry)
    (h : BlocksOK s.events) : BlocksOK (stepEntry env bl s e).events := by
  rw [stepEntry_events, List.append_assoc]
  refine blocksOK_append h ?_
  show BlocksOK (Event.save s.clock (procVersion s.clock e) ::
    Event.dispatch s.clock (formatPhoneNumber e.phone) e.name ::
    Event.save s.clock (finalVersion (env.dispatch s.dispatchIdx) (procVersion s.clock e)) ::
    pacingPart env bl s)
  exact BlocksOK.block _ _ _ _ _ _ _ _
    rfl
    (Nat.succ_le_succ (Nat.zero_le _))
    rfl
    (finalVersion_id _ _)
    (finalVersion_attempts _ _)
    (finalVersion_fields _ _)
    (blocksOK_pacingPart env bl s)

theorem blocksOK_foldl_step {env : Env} {bl : Nat} :
    ∀ (batch : List BulkCallEntry) (s : RunState), BlocksOK s.events →
      BlocksOK ((batch.foldl (stepEntry env bl) s).events) := by
  intro batch
  induction batch with
  | nil => intro s h; exact h
  | cons b batch ih =>
    intro s h
    rw [List.foldl_cons]
    exact ih _ (blocksOK_stepEntry b h)

theorem blocksOK_afterBatch {s1 : RunState} (h : BlocksOK s1.events) :
    BlocksOK (afterBatch s1).events := by
  show BlocksOK (s1.events ++ [Event.sleep s1.clock BATCH_PAUSE])
  exact blocksOK_append h (BlocksOK.sleep _ _ _ BlocksOK.nil)

theorem blocksOK_runLoop (env : Env) (u : String) :
    ∀ (fuel k : Nat) (s : RunState), BlocksOK s.events →
      BlocksOK ((runLoop env u k fuel s).1.events) := by
  intro fuel
  induction fuel with
  | zero =>
    intro k s h
    rw [runLoop_zero]
    exact h
  | succ fuel ih =>
    intro k s h
    rw [runLoop_succ]
    by_cases hf : env.fetchFails k = true
    · rw [if_pos hf]; exact h
    · rw [if_neg hf]
      by_cases hb : (fetchBatch u s.store).isEmpty = true
      · rw [if_pos hb]; exact h
      · rw [if_neg hb]
        exact ih (k + 1) _ (blocksOK_afterBatch (blocksOK_foldl_step _ _ h))

/-- C5: per entry the processor first persists the `processing` state with
`callAttempts` incremented by exactly one and `lastAttemptAt` stamped,
then issues the dispatch call, then persists the terminal state —
`completed` with the provider call id and a cleared `errorMessage` on
success, `failed` with the failure reason on failure (`finalVersion`
spells out those fields); every whole-run trace decomposes into such
save–dispatch–save blocks and stand-alone sleeps. -/
theorem entry_transition_sequence (env : Env) (active : List String)
    (store : List BulkCallEntry) (u : String) (bl : Nat) (s : RunState)
    (e : BulkCallEntry) :
    BlocksOK (processCallQueue env active store u).2.events ∧
    (stepEntry env bl s e).events = s.events ++
      [Event.save s.clock (procVersion s.clock e),
       Event.dispatch s.clock (formatPhoneNumber e.phone) e.name,
       Event.save s.clock (finalVersion (env.dispatch s.dispatchIdx) (procVersion s.clock e))]
      ++ pacingPart env bl s := by
  refine ⟨?_, stepEntry_events env bl s e⟩
  unfold processCallQueue
  by_cases ha : active.contains u = true
  · rw [if_pos ha]
    exact BlocksOK.nil
  · rw [if_neg ha]
    exact blocksOK_runLoop env u (store.length + 1) 0 (initState store) BlocksOK.nil

/-! ## Retry-all (claim C7) -/

/-- An entry of owner `"U"` with a given id and status (other fields
fixed), for the retry-all scenario of the specification. -/
def retryEx (i : Nat) (st : CallStatus) : BulkCallEntry :=
  { id := i, userId := "U", name := "contact", phone := "9876543210",
    city := none, email := none, notes := none,
    status := st, bolnaCallId := none, errorMessage := none,
    callAttempts := 1, lastAttemptAt := none, createdAt := i }

def retryExStore : List BulkCallEntry :=
  [retryEx 1 CallStatus.failed, retryEx 2 CallStatus.completed, retryEx 3 CallStatus.failed]

/-- C7: retry-all sets `status := pending` on exactly the owner's `failed`
entries, leaves every other entry — and every other field of the reset
ones — unchanged, and reports `retriedCount` equal to the number of
entries reset; on `[{id1, failed}, {id2, completed}, {id3, failed}]` it
resets ids 1 and 3 and answers `retriedCount = 2`. -/
theorem retryAll_resets_exactly_failed (u : String) (store : List BulkCallEntry)
    (i : Nat) :
    ((retryAll u store).1)[i]? = (store[i]?).map
      (fun e => if isFailedFor u e then { e with status := CallStatus.pending } else e) ∧
    (retryAll u store).2 = store.countP (isFailedFor u) ∧
    retryAllRoute "U" retryExStore =
      ([retryEx 1 CallStatus.pending, retryEx 2 CallStatus.completed,
        retryEx 3 CallStatus.pending], RetryAllResp.ok 2) := by
  refine ⟨?_, rfl, by decide⟩
  show (store.map (fun e => if isFailedFor u e then { e with status := CallStatus.pending }
    else e))[i]? = _
  rw [List.getElem?_map]

/-! ## Upload duplicates (claim C8) -/

/-- The uploaded contact of the duplicate scenario: its phone number
already belongs to one of the owner's stored entries. -/
def dupContact : ParsedContact :=
  { name := "Bob", phone := "9876543210", city := none, email := none, notes := none }

/-- C8 counterexample: with `checkDuplicates` absent from the request
body (the default), an uploaded phone that already exists among the
owner's entries (`exStore` holds it for owner `"u7"`) is NOT reported:
the response's duplicate list does not contain it, contradicting the
claim that duplicates are reported by default. -/
theorem upload_default_does_not_report_duplicates :
    ((uploadContacts "u7" none [dupContact] exStore 10 5).2.contains "9876543210") = false ∧
    (exStore.any (fun e => e.userId == "u7" && e.phone == "9876543210")) = true := by
  exact ⟨by decide, by decide⟩

/-- C8 (amended): when the upload request opts in with
`checkDuplicates = 'true'`, a contact whose phone already exists among the
owner's entries is reported in the duplicates list; and regardless of the
flag the parsed rows are always inserted as fresh `pending` rows with zero
attempts, so the owner's entry count grows by the number of uploaded
contacts even when duplicates are flagged. -/
theorem upload_reports_when_checked_and_always_inserts (u : String)
    (cdf : Option String) (contacts : List ParsedContact)
    (store : List BulkCallEntry) (baseId now : Nat) (c : ParsedContact)
    (e : BulkCallEntry) (hc : c ∈ contacts) (he : e ∈ store)
    (heu : e.userId = u) (hep : e.phone = c.phone) :
    uploadRoute u cdf contacts store baseId now =
      some (uploadContacts u cdf contacts store baseId now) ∧
    (uploadContacts u cdf contacts store baseId now).1.length =
      store.length + contacts.length ∧
    (cdf = some "true" → c.phone ∈ (uploadContacts u cdf contacts store baseId now).2) ∧
    ((uploadContacts u cdf contacts store baseId now).1.drop store.length).all
      (fun x => x.status == CallStatus.pending && x.callAttempts == 0) = true := by
  refine ⟨?_, ?_, ?_, ?_⟩
  · rw [uploadRoute, if_neg]
    intro hemp
    exact List.ne_nil_of_mem hc (List.isEmpty_iff.mp hemp)
  · show (store ++ contacts.enum.map
      (fun p => mkQueueEntry u (baseId + p.1) now p.2)).length =
      store.length + contacts.length
    rw [List.length_append, List.length_map, List.enum_length]
  · intro hcdf
    subst hcdf
    show c.phone ∈ findDuplicates contacts ((store.filter
      (fun e => e.userId == u && (contacts.map (fun c => c.phone)).contains e.phone)).map
        (fun e => e.phone))
    refine List.mem_filterMap.mpr ⟨c, hc, ?_⟩
    rw [if_pos]
    have hmemf : e ∈ store.filter
        (fun e => e.userId == u && (contacts.map (fun c => c.phone)).contains e.phone) := by
      refine List.mem_filter.mpr ⟨he, ?_⟩
      rw [Bool.and_eq_true]
      refine ⟨beq_iff_eq.mpr heu, ?_⟩
      exact List.elem_iff.mpr (hep ▸ List.mem_map_of_mem _ hc)
    have : e.phone ∈ (store.filter
        (fun e => e.userId == u && (contacts.map (fun c => c.phone)).contains e.phone)).map
          (fun e => e.phone) := List.mem_map_of_mem _ hmemf
    exact List.elem_iff.mpr (hep ▸ this)
  · show ((store ++ contacts.enum.map
      (fun p => mkQueueEntry u (baseId + p.1) now p.2)).drop store.length).all
      (fun x => x.status == CallStatus.pending && x.callAttempts == 0) = true
    rw [List.drop_left]
    rw [List.all_eq_true]
    intro x hx
    rcases List.mem_map.mp hx with ⟨p, _, hpx⟩
    rw [← hpx]
    rfl

theorem upload_reports_when_checked_and_always_inserts_witness :
    uploadRoute "u7" (some "true") [dupContact] exStore 10 5 =
      some (uploadContacts "u7" (some "true") [dupContact] exStore 10 5) ∧
    (uploadContacts "u7" (some "true") [dupContact] exStore 10 5).1.length =
      exStore.length + [dupContact].length ∧
    (some "true" = some "true" →
      dupContact.phone ∈ (uploadContacts "u7" (some "true") [dupContact] exStore 10 5).2) ∧
    ((uploadContacts "u7" (some "true") [dupContact] exStore 10 5).1.drop exStore.length).all
      (fun x => x.status == CallStatus.pending && x.callAttempts == 0) = true :=
  upload_reports_when_checked_and_always_inserts "u7" (some "true") [dupContact] exStore
    10 5 dupContact qe1 (List.mem_singleton.mpr rfl) (List.mem_singleton.mpr rfl) rfl rfl
